import Mathlib

/-!
Verification of the broker-core specification of this repository.

The repository's source is tutorial prose (RabbitMQ/Kafka guides) plus a
small Express refresh-token application.  The broker-core operations the
spec describes (topic routing, append-only partition logs, the partition
assigner, commit cursors, the delivery scheduler) have no implementation
under the source tree, so they are modelled here faithfully from the
spec's own words; the refresh-token application is embedded directly from
its source.
-/

namespace Broker


/-- Modelled from the spec: the topic-exchange wildcard matcher, missing
from the source tree (only the RabbitMQ tutorial prose describes it).
Pattern and key are dot-split word lists; `*` consumes exactly one
segment; `#` consumes zero or more segments, trying the remaining pattern
suffix at every position. -/
def topicMatch : List String → List String → Bool
  | [], ks => ks.isEmpty
  | "#" :: ps, ks => ks.tails.any fun t => topicMatch ps t
  | "*" :: ps, _ :: ks => topicMatch ps ks
  | "*" :: _, [] => false
  | p :: ps, k :: ks => (p == k) && topicMatch ps ks
  | _ :: _, [] => false

/-- Helper for `splitDots`: split a character list on `.`, keeping empty
segments, so that the result always has one more segment than there are
dots. -/
def splitDotsAux : List Char → List (List Char)
  | [] => [[]]
  | c :: cs =>
    match splitDotsAux cs with
    | [] => [[c]]
    | cur :: rest => if c = '.' then [] :: cur :: rest else (c :: cur) :: rest

/-- Split a routing key or binding pattern on `.` (the behaviour of
`s.splitOn "."`, written structurally). -/
def splitDots (s : String) : List String :=
  (splitDotsAux s.data).map List.asString

/-- Modelled from the spec: a `Binding` maps an exchange's routing rule
(`pattern`) to a destination queue. -/
structure Binding where
  queue : String
  pattern : String

/-- Modelled from the spec: the topic-exchange router evaluates all
bindings on the exchange against the routing key with the wildcard
algorithm and delivers to every matching queue. -/
def routeTopic (bindings : List Binding) (key : String) : List String :=
  (bindings.filter fun b => topicMatch (splitDots b.pattern) (splitDots key)).map Binding.queue

/-- Modelled from the spec: an immutable stored message — an offset
assigned at append time plus an opaque payload. -/
structure Message where
  offset : Nat
  value : String
deriving DecidableEq

/-- Modelled from the spec: `append` on a partition log assigns the next
offset (one past the current highest) and returns it; it is the sole
mutator of the log. -/
def append (log : List Message) (value : String) : List Message × Nat :=
  (log ++ [{ offset := log.length, value := value }], log.length)

/-- The offsets of a partition log, in log order. -/
def offsets (log : List Message) : List Nat := log.map Message.offset

/-- Modelled from the spec: the partition-log states reachable from the
empty log by appends — `append` being the only operation that mutates
the log. -/
inductive ReachableLog : List Message → Prop
  | empty : ReachableLog []
  | step (log : List Message) (value : String) :
      ReachableLog log → ReachableLog (append log value).1

/-- Modelled from the spec: how many partitions member `i` receives when
`n` partitions are divided as evenly as possible among `m` members — a
`floor`/`ceil` split in which the first `n % m` members get one extra. -/
def memberCount (n m i : Nat) : Nat := n / m + if i < n % m then 1 else 0

/-- Modelled from the spec: the start of member `i`'s contiguous range of
partitions under the range-based even distribution. -/
def memberStart (n m i : Nat) : Nat := i * (n / m) + min i (n % m)

/-- Modelled from the spec: the pure range-based partition assigner —
`assign(partitions, members)` gives each member of the ordered member
list a contiguous range of the ordered partition list, divided as evenly
as possible; excess members receive nothing (idle). -/
def assign (partitions : List Nat) (members : List String) : List (String × List Nat) :=
  members.enum.map fun ic =>
    (ic.2, (partitions.drop (memberStart partitions.length members.length ic.1)).take
      (memberCount partitions.length members.length ic.1))

/-- Modelled from the spec: publishing on a fanout exchange ignores the
routing key and delivers one copy of the message to every queue
currently bound to the exchange (each queue is a name with its current
message list). -/
def fanoutPublish (queues : List (String × List String)) (routingKey : String)
    (message : String) : List (String × List String) :=
  queues.map fun q => (q.1, q.2 ++ [message])

/-- Modelled from the spec: cumulative acknowledgement of offset `n` on a
(group, partition) commit cursor (`none` = nothing committed yet).  The
update is a compare-and-advance (monotonic max), and the returned `Bool`
is the success flag — re-acking is a success, never an error. -/
def ackCumulative (cursor : Option Nat) (n : Nat) : Option Nat × Bool :=
  match cursor with
  | none => (some n, true)
  | some c => (some (max c n), true)

/-- An offset is committed exactly when it is at or below the cursor. -/
def committedUpTo (cursor : Option Nat) (o : Nat) : Bool :=
  match cursor with
  | none => false
  | some c => decide (o ≤ c)

/-- Processing one ack arrival on the cursor (the state part of
`ackCumulative`). -/
def ackStep (cursor : Option Nat) (n : Nat) : Option Nat := (ackCumulative cursor n).1

/-- Cursor comparison: everything committed under `a` is committed under
`b`. -/
def cursorLE (a b : Option Nat) : Prop :=
  ∀ o : Nat, committedUpTo a o = true → committedUpTo b o = true

/-- Modelled from the spec: a consumer session as seen by the delivery
scheduler — its id, prefetch limit, and number of in-flight
(unacknowledged) messages. -/
structure ConsumerSession where
  cid : String
  prefetchLimit : Nat
  inFlight : Nat
deriving DecidableEq

/-- A consumer has spare capacity when its in-flight count is below its
prefetch limit. -/
def hasCapacity (c : ConsumerSession) : Bool := decide (c.inFlight < c.prefetchLimit)

/-- A consumer with zero in-flight messages and spare capacity. -/
def idleReady (c : ConsumerSession) : Bool := c.inFlight == 0 && hasCapacity c

/-- Modelled from the spec: the delivery scheduler's fairness policy for
choosing which consumer of a group receives the next available message —
a consumer with zero in-flight messages and capacity is always preferred
over one already at its prefetch limit, and a consumer with no spare
capacity is never chosen. -/
def pickConsumer (cs : List ConsumerSession) : Option ConsumerSession :=
  match cs.find? idleReady with
  | some c => some c
  | none => cs.find? hasCapacity

/-- Modelled from the spec: publishing a sequence of messages to a topic
with exactly one partition — each publish appends to that partition's
log. -/
def publishAll (msgs : List String) : List Message :=
  msgs.foldl (fun log v => (append log v).1) []

/-- Modelled from the spec: `read(topic, partition, fromOffset,
maxMessages)` — the ordered batch of at most `maxMessages` messages of
the log starting at `fromOffset`. -/
def readLog (log : List Message) (fromOffset maxMessages : Nat) : List Message :=
  (log.drop fromOffset).take maxMessages

/-- Modelled from the spec: a single consumer in a fresh group polling
batches from its cursor until the log is exhausted (`fuel` bounds the
number of polls; one message is consumed per poll at minimum, so a fuel
of the log length always suffices). -/
def pollAll (log : List Message) (batch : Nat) : Nat → Nat → List Message
  | _, 0 => []
  | cursor, fuel + 1 =>
    let b := readLog log cursor batch
    if b.isEmpty then [] else b ++ pollAll log batch (cursor + b.length) fuel

end Broker

namespace RefreshApp


/-- A user of the simulated user DB of the refresh-token app. -/
structure User where
  id : Nat
  username : String
  password : String
  role : String
deriving DecidableEq

/-- The simulated user DB (`users` in the source). -/
def users : List User :=
  [⟨1, "user1", "pass1", "admin"⟩, ⟨2, "user2", "pass2", "user"⟩]

/-- A JWT payload as the handlers build it: `{ id }` or `{ id, role }`.
An absent role claim — including a property whose value is `undefined`,
which JSON serialization drops — is `none`. -/
structure Payload where
  id : Nat
  role : Option String
deriving DecidableEq

/-- A signed JWT: the secret it was signed with plus its decoded
payload (`jwt.sign`; expiry is outside this model). -/
structure Token where
  secret : String
  payload : Payload
deriving DecidableEq

def JWT_ACCESS_SECRET : String := "access_secret_vinay"

def JWT_REFRESH_SECRET : String := "refresh_secret_vinay"

/-- `jwt.sign(payload, secret)`. -/
def sign (payload : Payload) (secret : String) : Token := ⟨secret, payload⟩

/-- `jwt.verify(token, secret)`: the decoded payload when the token was
signed with this secret, an error otherwise. -/
def verify (token : Token) (secret : String) : Option Payload :=
  if token.secret = secret then some token.payload else none

/-- The server's mutable state: the in-memory `refreshTokens` list. -/
structure ServerState where
  refreshTokens : List Token
deriving DecidableEq

/-- An HTTP response as the handlers build it: status, `message` field
of the JSON body (empty when the body has none), the access token of the
body if any, and the refresh-token cookie set by the response if any. -/
structure HttpResponse where
  status : Nat
  message : String
  accessToken : Option Token
  setCookie : Option Token
deriving DecidableEq

/-- `POST /login`: look the user up by username and password; on failure
answer `401 Invalid credentials`; on success sign the access token with
payload `{ id, role }` and the refresh token with payload `{ id }` (no
role claim), push the refresh token onto `refreshTokens`, set the
cookie, and return the access token. -/
def login (st : ServerState) (username password : String) : ServerState × HttpResponse :=
  match users.find? (fun u => u.username == username && u.password == password) with
  | none => (st, ⟨401, "Invalid credentials", none, none⟩)
  | some user =>
    let accessToken := sign ⟨user.id, some user.role⟩ JWT_ACCESS_SECRET
    let refreshToken := sign ⟨user.id, none⟩ JWT_REFRESH_SECRET
    (⟨st.refreshTokens ++ [refreshToken]⟩,
      ⟨200, "Login successful", some accessToken, some refreshToken⟩)

/-- `POST /refresh`: require the cookie, require the token to be in
`refreshTokens`, verify it against the refresh secret, then sign a new
access token from the decoded payload as `{ id: user.id, role:
user.role }` — `user` being the decoded refresh payload, whose role
claim is absent. -/
def refreshRoute (st : ServerState) (cookie : Option Token) : HttpResponse :=
  match cookie with
  | none => ⟨401, "Refresh token missing", none, none⟩
  | some rt =>
    if rt ∈ st.refreshTokens then
      match verify rt JWT_REFRESH_SECRET with
      | none => ⟨403, "Invalid or expired refresh token", none, none⟩
      | some user => ⟨200, "", some (sign ⟨user.id, user.role⟩ JWT_ACCESS_SECRET), none⟩
    else ⟨403, "Invalid refresh token", none, none⟩

/-- `GET /admin` behind `authenticateAccessToken`: verify the bearer
token against the access secret, then deny with `403 Access denied`
unless the decoded role is `admin`. -/
def adminRoute (bearer : Option Token) : HttpResponse :=
  match bearer with
  | none => ⟨401, "Missing Authorization header", none, none⟩
  | some tok =>
    match verify tok JWT_ACCESS_SECRET with
    | none => ⟨403, "Invalid or expired token", none, none⟩
    | some user =>
      if user.role ≠ some "admin" then ⟨403, "Access denied", none, none⟩
      else ⟨200, "Admin data access granted", none, none⟩

end RefreshApp

namespace Broker

/-- C1: publishing with routing key `K` on a topic exchange delivers to
exactly the queues whose binding pattern matches `K` under the `*`/`#`
wildcard algorithm; in particular `user.#` matches
`user.europe.payments`, `*.europe.*` matches both
`user.europe.payments` and `business.europe.order`, and `#.payments`
matches `user.europe.payments` but not `business.europe.order`. -/
theorem topic_routing_delivers_exactly_matching (bindings : List Binding) (key q : String) :
    (q ∈ routeTopic bindings key ↔
      ∃ b ∈ bindings, b.queue = q ∧ topicMatch (splitDots b.pattern) (splitDots key) = true) ∧
    topicMatch (splitDots "user.#") (splitDots "user.europe.payments") = true ∧
    topicMatch (splitDots "*.europe.*") (splitDots "user.europe.payments") = true ∧
    topicMatch (splitDots "*.europe.*") (splitDots "business.europe.order") = true ∧
    topicMatch (splitDots "#.payments") (splitDots "user.europe.payments") = true ∧
    topicMatch (splitDots "#.payments") (splitDots "business.europe.order") = false := by
  refine ⟨?_, by decide, by decide, by decide, by decide, by decide⟩
  simp only [routeTopic, List.mem_map, List.mem_filter]
  constructor
  · rintro ⟨b, ⟨hb, hm⟩, hq⟩
    exact ⟨b, hb, hq, hm⟩
  · rintro ⟨b, hb, hq, hm⟩
    exact ⟨b, ⟨hb, hm⟩, hq⟩

/-- C2: every partition log reachable by appends has offsets
`0, 1, 2, …` consecutively (strictly increasing, no gaps), and a further
append returns exactly the next offset and stays in the reachable set. -/
theorem append_offsets_consecutive (log : List Message) (h : ReachableLog log) :
    offsets log = List.range log.length ∧
    List.Chain' (· < ·) (offsets log) ∧
    ∀ value, (append log value).2 = log.length ∧ ReachableLog (append log value).1 := by
  have key : offsets log = List.range log.length := by
    induction h with
    | empty => rfl
    | step l v _ ih =>
      simp only [append, offsets, List.map_append, List.length_append, List.map_cons,
        List.map_nil, List.length_cons, List.length_nil]
      rw [List.range_succ, ← offsets, ih]
  refine ⟨key, ?_, fun value => ⟨rfl, ReachableLog.step log value h⟩⟩
  rw [key]
  exact (List.pairwise_lt_range _).chain'

/-- Witness for C2 at the concrete log obtained by two appends. -/
theorem append_offsets_consecutive_witness :
    offsets ((append (append [] "a").1 "b").1) =
      List.range ((append (append [] "a").1 "b").1).length ∧
    List.Chain' (· < ·) (offsets ((append (append [] "a").1 "b").1)) ∧
    ∀ value, (append ((append (append [] "a").1 "b").1) value).2 =
        ((append (append [] "a").1 "b").1).length ∧
      ReachableLog (append ((append (append [] "a").1 "b").1) value).1 :=
  append_offsets_consecutive _
    (ReachableLog.step _ _ (ReachableLog.step _ _ ReachableLog.empty))

theorem assign_length (partitions : List Nat) (members : List String) :
    (assign partitions members).length = members.length := by
  simp [assign]

theorem memberStart_add_memberCount_le (n m i : Nat) (h : i < m) :
    memberStart n m i + memberCount n m i ≤ n := by
  have key : memberStart n m i + memberCount n m i = (i + 1) * (n / m) + min (i + 1) (n % m) := by
    unfold memberStart memberCount
    by_cases hc : i < n % m
    · rw [if_pos hc, min_eq_left (Nat.le_of_lt hc), min_eq_left (Nat.succ_le_of_lt hc)]
      simp only [Nat.succ_eq_add_one]
      ring
    · rw [if_neg hc, min_eq_right (Nat.le_of_not_lt hc),
        min_eq_right (Nat.le_trans (Nat.le_of_not_lt hc) (Nat.le_succ i))]
      ring
  rw [key]
  calc (i + 1) * (n / m) + min (i + 1) (n % m)
      ≤ m * (n / m) + n % m :=
        Nat.add_le_add (Nat.mul_le_mul_right _ (Nat.succ_le_of_lt h)) (Nat.min_le_right _ _)
    _ = n := Nat.div_add_mod n m

theorem assign_entry_length (partitions : List Nat) (members : List String) (i : Nat)
    (hi : i < (assign partitions members).length) :
    ((assign partitions members).get ⟨i, hi⟩).2.length =
      memberCount partitions.length members.length i := by
  have hms : i < members.length := by rwa [assign_length] at hi
  simp only [assign, List.get_eq_getElem, List.getElem_map, List.getElem_enum,
    List.length_take, List.length_drop]
  have := memberStart_add_memberCount_le partitions.length members.length i hms
  omega

/-- C3: the partition assigner is a pure deterministic function (two
calls on identical ordered inputs agree), no member owns more than one
partition more than any other, and the spec's scenarios hold: 4
partitions over 2 members give each exactly 2 (contiguous ranges), over
5 members exactly one member is idle, over 1 member that member gets all
4, and an empty member list gives an empty assignment. -/
theorem assign_deterministic_balanced :
    (∀ (ps qs : List Nat) (ms ns : List String), ps = qs → ms = ns →
      assign ps ms = assign qs ns) ∧
    (∀ (ps : List Nat) (ms : List String) (i j : Nat)
      (hi : i < (assign ps ms).length) (hj : j < (assign ps ms).length),
      ((assign ps ms).get ⟨i, hi⟩).2.length ≤ ((assign ps ms).get ⟨j, hj⟩).2.length + 1) ∧
    assign (List.range 4) ["m1", "m2"] = [("m1", [0, 1]), ("m2", [2, 3])] ∧
    assign (List.range 4) ["m1", "m2", "m3", "m4", "m5"] =
      [("m1", [0]), ("m2", [1]), ("m3", [2]), ("m4", [3]), ("m5", [])] ∧
    assign (List.range 4) ["m1"] = [("m1", [0, 1, 2, 3])] ∧
    ∀ ps : List Nat, assign ps [] = [] := by
  refine ⟨?_, ?_, by decide, by decide, by decide, fun ps => rfl⟩
  · rintro ps qs ms ns rfl rfl
    rfl
  · intro ps ms i j hi hj
    rw [assign_entry_length, assign_entry_length]
    unfold memberCount
    split <;> split <;> omega

/-- Witness for C3's balance component at a concrete input. -/
theorem assign_deterministic_balanced_witness :
    ((assign (List.range 4) ["m1", "m2"]).get ⟨0, by decide⟩).2.length ≤
      ((assign (List.range 4) ["m1", "m2"]).get ⟨1, by decide⟩).2.length + 1 :=
  assign_deterministic_balanced.2.1 (List.range 4) ["m1", "m2"] 0 1 (by decide) (by decide)

/-- C4: a single fanout publish reaches every currently bound queue, each
bound queue receives exactly one copy (its count of the message grows by
one and the message is appended), and the result does not depend on the
routing key supplied. -/
theorem fanout_delivers_one_copy_each (queues : List (String × List String))
    (routingKey message : String) :
    (fanoutPublish queues routingKey message).length = queues.length ∧
    (∀ (i : Nat) (hp : i < (fanoutPublish queues routingKey message).length)
      (hq : i < queues.length),
      ((fanoutPublish queues routingKey message).get ⟨i, hp⟩ =
        ((queues.get ⟨i, hq⟩).1, (queues.get ⟨i, hq⟩).2 ++ [message])) ∧
      ((fanoutPublish queues routingKey message).get ⟨i, hp⟩).2.count message =
        ((queues.get ⟨i, hq⟩).2.count message) + 1) ∧
    ∀ otherKey, fanoutPublish queues routingKey message = fanoutPublish queues otherKey message := by
  refine ⟨by simp [fanoutPublish], ?_, fun otherKey => rfl⟩
  intro i hp hq
  simp [fanoutPublish, List.get_eq_getElem, List.getElem_map, List.count_append]

/-- Witness for C4's entrywise component at a concrete input. -/
theorem fanout_delivers_one_copy_each_witness :
    ((fanoutPublish [("q1", []), ("q2", ["x"])] "k" "m").get ⟨1, by decide⟩ =
      ((([("q1", []), ("q2", ["x"])] : List (String × List String)).get ⟨1, by decide⟩).1,
        (([("q1", []), ("q2", ["x"])] : List (String × List String)).get ⟨1, by decide⟩).2
          ++ ["m"])) ∧
    ((fanoutPublish [("q1", []), ("q2", ["x"])] "k" "m").get ⟨1, by decide⟩).2.count "m" =
      ((([("q1", []), ("q2", ["x"])] : List (String × List String)).get
        ⟨1, by decide⟩).2.count "m") + 1 :=
  (fanout_delivers_one_copy_each [("q1", []), ("q2", ["x"])] "k" "m").2.1 1
    (by decide) (by decide)

/-- C5: cumulative ack of offset `n` commits every offset `≤ n`, the
operation reports success, and it is idempotent — re-acking `n` with the
cursor already at `n` leaves the cursor unchanged and still succeeds. -/
theorem ack_cumulative_commits_below_and_idempotent (cursor : Option Nat) (n : Nat) :
    (∀ o, o ≤ n → committedUpTo (ackCumulative cursor n).1 o = true) ∧
    (ackCumulative cursor n).2 = true ∧
    ackCumulative (some n) n = (some n, true) := by
  refine ⟨?_, ?_, by simp [ackCumulative]⟩
  · intro o ho
    cases cursor <;> simp [ackCumulative, committedUpTo] <;> omega
  · cases cursor <;> simp [ackCumulative]

/-- Witness for C5 at a concrete cursor, offset and committed offset. -/
theorem ack_cumulative_commits_below_and_idempotent_witness :
    committedUpTo (ackCumulative (some 5) 7).1 3 = true :=
  (ack_cumulative_commits_below_and_idempotent (some 5) 7).1 3 (by decide)

theorem cursorLE_ackStep (cursor : Option Nat) (n : Nat) : cursorLE cursor (ackStep cursor n) := by
  intro o ho
  cases cursor with
  | none => simp [committedUpTo] at ho
  | some c =>
    simp [committedUpTo] at ho
    simp [ackStep, ackCumulative, committedUpTo]
    omega

theorem head?_scanl (f : Option Nat → Nat → Option Nat) (b : Option Nat) (l : List Nat) :
    (List.scanl f b l).head? = some b := by
  cases l <;> rfl

theorem ackStep_right_comm (c : Option Nat) (a b : Nat) :
    ackStep (ackStep c a) b = ackStep (ackStep c b) a := by
  cases c <;> simp [ackStep, ackCumulative] <;> omega

/-- C6: each cursor update is a compare-and-advance (the committed set
only grows), so along any sequence of ack arrivals — in any order — the
committed offset never decreases, and the final cursor does not depend
on the arrival order at all. -/
theorem cursor_never_regresses (init : Option Nat) (acks : List Nat) :
    List.Chain' cursorLE (List.scanl ackStep init acks) ∧
    (∀ cursor n, cursorLE cursor (ackStep cursor n)) ∧
    (∀ acks2, acks.Perm acks2 →
      List.foldl ackStep init acks = List.foldl ackStep init acks2) := by
  refine ⟨?_, fun cursor n => cursorLE_ackStep cursor n, ?_⟩
  · induction acks generalizing init with
    | nil => simp
    | cons a l ih =>
      rw [List.scanl_cons, List.singleton_append, List.chain'_cons']
      refine ⟨?_, ih _⟩
      intro b hb
      rw [head?_scanl] at hb
      cases hb
      exact cursorLE_ackStep init a
  · intro acks2 hperm
    haveI : RightCommutative ackStep := ⟨fun c a b => ackStep_right_comm c a b⟩
    exact hperm.foldl_eq init

/-- Witness for C6's per-update monotonicity component at a concrete
cursor and ack. -/
theorem cursor_never_regresses_witness : committedUpTo (ackStep (some 4) 2) 3 = true :=
  (cursor_never_regresses (some 4) []).2.1 (some 4) 2 3 (by decide)

/-- C7: the scheduler never delivers to a consumer at its prefetch limit
(the chosen consumer always has spare capacity); whenever some consumer
of the group has zero in-flight messages and spare capacity, the chosen
consumer itself has zero in-flight messages; and in the two-consumer
prefetch-1 scenario, while `A` is still processing one message the next
available message goes to `B`. -/
theorem prefetch_fairness (cs : List ConsumerSession) (c : ConsumerSession)
    (hpick : pickConsumer cs = some c) :
    hasCapacity c = true ∧
    ((∃ d ∈ cs, idleReady d = true) → c.inFlight = 0) ∧
    pickConsumer [⟨"A", 1, 1⟩, ⟨"B", 1, 0⟩] = some ⟨"B", 1, 0⟩ := by
  refine ⟨?_, ?_, by decide⟩
  · unfold pickConsumer at hpick
    split at hpick
    · rename_i d hd
      cases hpick
      have h2 : c.inFlight = 0 ∧ hasCapacity c = true := by
        simpa [idleReady] using List.find?_some hd
      exact h2.2
    · exact List.find?_some hpick
  · rintro ⟨d, hd, hidle⟩
    unfold pickConsumer at hpick
    split at hpick
    · rename_i e he
      cases hpick
      have := List.find?_some he
      simp [idleReady] at this
      exact this.1
    · rename_i hnone
      rw [List.find?_eq_none] at hnone
      exact absurd hidle (by simpa using hnone d hd)

/-- Witness for C7 in the concrete two-consumer prefetch-1 scenario:
`A` is at its limit with one message in flight, `B` is free, and the
scheduler picks `B`. -/
theorem prefetch_fairness_witness :
    hasCapacity ⟨"B", 1, 0⟩ = true ∧
    ((∃ d ∈ [(⟨"A", 1, 1⟩ : ConsumerSession), ⟨"B", 1, 0⟩], idleReady d = true) →
      (⟨"B", 1, 0⟩ : ConsumerSession).inFlight = 0) ∧
    pickConsumer [⟨"A", 1, 1⟩, ⟨"B", 1, 0⟩] = some ⟨"B", 1, 0⟩ :=
  prefetch_fairness [⟨"A", 1, 1⟩, ⟨"B", 1, 0⟩] ⟨"B", 1, 0⟩ (by decide)

theorem publishAll_values (msgs : List String) :
    ∀ acc : List Message,
      (msgs.foldl (fun log v => (append log v).1) acc).map Message.value =
        acc.map Message.value ++ msgs := by
  induction msgs with
  | nil => intro acc; simp
  | cons v vs ih =>
    intro acc
    rw [List.foldl_cons, ih]
    simp [append]

theorem pollAll_exhausts (log : List Message) (batch : Nat) (hb : 0 < batch) :
    ∀ (fuel cursor : Nat), log.length - cursor ≤ fuel →
      pollAll log batch cursor fuel = log.drop cursor := by
  intro fuel
  induction fuel with
  | zero =>
    intro cursor hc
    exact (List.drop_eq_nil_of_le (by omega)).symm
  | succ n ih =>
    intro cursor hc
    show (if (readLog log cursor batch).isEmpty then []
      else readLog log cursor batch ++
        pollAll log batch (cursor + (readLog log cursor batch).length) n) = log.drop cursor
    by_cases hempty : (readLog log cursor batch).isEmpty
    · rw [if_pos hempty]
      rw [List.isEmpty_iff] at hempty
      unfold readLog at hempty
      rw [List.take_eq_nil_iff] at hempty
      rcases hempty with h0 | hnil
      · omega
      · exact hnil.symm
    · rw [if_neg hempty]
      rw [List.isEmpty_iff] at hempty
      have hlen : (readLog log cursor batch).length = min batch (log.length - cursor) := by
        simp [readLog]
      have hpos : 0 < (readLog log cursor batch).length :=
        List.length_pos.mpr hempty
      rw [ih (cursor + (readLog log cursor batch).length) (by omega)]
      rw [← List.drop_drop]
      unfold readLog
      rcases le_or_lt batch (log.length - cursor) with hle | hlt
      · have : ((log.drop cursor).take batch).length = batch := by
          simp [List.length_take, List.length_drop]
          omega
        rw [this]
        exact List.take_append_drop batch (log.drop cursor)
      · have htake : (log.drop cursor).take batch = log.drop cursor :=
          List.take_of_length_le (by simp [List.length_drop]; omega)
        rw [htake, List.drop_length, List.append_nil]

/-- C8: publishing `M` messages to a single-partition topic and draining
it with one consumer of a fresh group yields exactly the log, whose
values are exactly the `M` published messages in publish order — no
duplicates, no omissions. -/
theorem publish_consume_round_trip (msgs : List String) (batch : Nat) (h : 0 < batch) :
    pollAll (publishAll msgs) batch 0 (publishAll msgs).length = publishAll msgs ∧
    (pollAll (publishAll msgs) batch 0 (publishAll msgs).length).map Message.value = msgs ∧
    (pollAll (publishAll msgs) batch 0 (publishAll msgs).length).length = msgs.length := by
  have hdrain : pollAll (publishAll msgs) batch 0 (publishAll msgs).length = publishAll msgs := by
    rw [pollAll_exhausts (publishAll msgs) batch h (publishAll msgs).length 0 (by omega)]
    exact List.drop_zero _
  have hvals : (publishAll msgs).map Message.value = msgs := by
    simpa using publishAll_values msgs []
  refine ⟨hdrain, by rw [hdrain, hvals], ?_⟩
  rw [hdrain, ← List.length_map (publishAll msgs) Message.value, hvals]

/-- Witness for C8 at three concrete messages and batch size 2. -/
theorem publish_consume_round_trip_witness :
    pollAll (publishAll ["a", "b", "c"]) 2 0 (publishAll ["a", "b", "c"]).length =
      publishAll ["a", "b", "c"] ∧
    (pollAll (publishAll ["a", "b", "c"]) 2 0
      (publishAll ["a", "b", "c"]).length).map Message.value = ["a", "b", "c"] ∧
    (pollAll (publishAll ["a", "b", "c"]) 2 0
      (publishAll ["a", "b", "c"]).length).length = (["a", "b", "c"] : List String).length :=
  publish_consume_round_trip ["a", "b", "c"] 2 (by decide)


end Broker

namespace RefreshApp

/-- C9: every access token minted by `POST /refresh` from a login's
refresh-token cookie carries no role claim, so `GET /admin` with it
answers `403 Access denied` — while the access token of user1's
original login (role `admin`) is accepted by `GET /admin`. -/
theorem refresh_token_loses_role (st : ServerState) (username password : String)
    (rt newAccess : Token)
    (hcookie : (login st username password).2.setCookie = some rt)
    (hrefresh : (refreshRoute (login st username password).1 (some rt)).accessToken =
      some newAccess) :
    newAccess.payload.role = none ∧
    adminRoute (some newAccess) = ⟨403, "Access denied", none, none⟩ ∧
    adminRoute (login ⟨[]⟩ "user1" "pass1").2.accessToken =
      ⟨200, "Admin data access granted", none, none⟩ := by
  cases hfind : users.find? (fun u => u.username == username && u.password == password) with
  | none => simp [login, hfind] at hcookie
  | some u =>
    have hrt : rt = sign ⟨u.id, none⟩ JWT_REFRESH_SECRET := by
      simp [login, hfind] at hcookie
      exact hcookie.symm
    have hmem : rt ∈ (login st username password).1.refreshTokens := by
      simp [login, hfind, hrt]
    have hverify : verify rt JWT_REFRESH_SECRET = some ⟨u.id, none⟩ := by
      simp [hrt, verify, sign]
    simp only [refreshRoute, if_pos hmem, hverify] at hrefresh
    have hnew : newAccess = sign ⟨u.id, none⟩ JWT_ACCESS_SECRET := by
      simpa [sign] using hrefresh.symm
    subst hnew
    refine ⟨rfl, ?_, by decide⟩
    simp [adminRoute, verify, sign]

/-- Witness for C9: the full user1 trace — login, refresh with the
issued cookie, then `GET /admin` with the refreshed access token. -/
theorem refresh_token_loses_role_witness :
    (sign ⟨1, none⟩ JWT_ACCESS_SECRET).payload.role = none ∧
    adminRoute (some (sign ⟨1, none⟩ JWT_ACCESS_SECRET)) = ⟨403, "Access denied", none, none⟩ ∧
    adminRoute (login ⟨[]⟩ "user1" "pass1").2.accessToken =
      ⟨200, "Admin data access granted", none, none⟩ :=
  refresh_token_loses_role ⟨[]⟩ "user1" "pass1" (sign ⟨1, none⟩ JWT_REFRESH_SECRET)
    (sign ⟨1, none⟩ JWT_ACCESS_SECRET) (by decide) (by decide)

/-- C10: a `POST /login` whose username/password pair matches no user
answers `401 Invalid credentials` and changes nothing — the state (and
so the `refreshTokens` list) is untouched, no token is returned, and no
cookie is set. -/
theorem login_invalid_credentials_atomic (st : ServerState) (username password : String)
    (h : ∀ u ∈ users, ¬(u.username = username ∧ u.password = password)) :
    login st username password = (st, ⟨401, "Invalid credentials", none, none⟩) := by
  have hfind : users.find? (fun u => u.username == username && u.password == password) = none := by
    rw [List.find?_eq_none]
    intro u hu
    simp only [Bool.and_eq_true, beq_iff_eq, not_and]
    intro h1 h2
    exact h u hu ⟨h1, h2⟩
  simp [login, hfind]

/-- Witness for C10 at a concrete unknown credential pair. -/
theorem login_invalid_credentials_atomic_witness :
    login ⟨[]⟩ "nobody" "nope" = (⟨[]⟩, ⟨401, "Invalid credentials", none, none⟩) :=
  login_invalid_credentials_atomic ⟨[]⟩ "nobody" "nope" (by decide)


end RefreshApp
